import Mathlib

/-!
Verification of the Today Desk scheduling/parsing core.

The definitions below are a shallow embedding of the core functions of the
page component (`parseTimeToMinutes`, `parseEvents`, `computeFreeSlots`,
`minutesToLabel`, `buildPlan`, `overloadMessage`).  Minute values are
natural numbers (minutes since midnight); task durations are integers,
since the source checks `durationMinutes <= 0`.  Strings are modelled by
their character lists; the two JavaScript regular expressions are encoded
as deterministic matchers over character lists (the greedy `\d{1,2}`
quantifier never needs backtracking here: when the two-digit alternative
matches, the one-digit alternative cannot, because the second character
would have to be both a digit and a colon).  `\s` and `String.trim` are
modelled over the ASCII whitespace characters, which is all the inputs in
scope contain.  `.` is modelled as "any character": the matched lines come
from splitting on the newline character, so they contain none.
-/

set_option linter.unusedVariables false

namespace TodayDesk

/-- Task context tags (`type TaskContext` in the source). -/
inductive TaskContext where
  | deep | admin | calls | errands | other
  deriving DecidableEq

/-- Review status tags (`type ReviewStatus` in the source). -/
inductive ReviewStatus where
  | none | done | delayed | canceled | moved | other
  deriving DecidableEq

/-- `interface ParsedEvent` of the source. -/
structure ParsedEvent where
  title : String
  startMinutes : Nat
  endMinutes : Nat
  deriving DecidableEq

/-- `interface FreeSlot` of the source. -/
structure FreeSlot where
  startMinutes : Nat
  endMinutes : Nat
  deriving DecidableEq

/-- `interface ParsedTask` of the source.  The source field `include` is a
Lean keyword, so it is called `include'` here. -/
structure ParsedTask where
  id : Nat
  title : String
  include' : Bool
  durationMinutes : Int
  isImportant : Bool
  context : TaskContext
  reviewStatus : Option ReviewStatus
  reviewNote : Option String
  deriving DecidableEq

/-- `interface PlannedBlock` of the source. -/
structure PlannedBlock where
  taskTitle : String
  startMinutes : Nat
  endMinutes : Nat
  isImportant : Bool
  context : TaskContext
  deriving DecidableEq

/-- The ASCII whitespace characters matched by `\s` (and removed by
`String.trim`) in the source's regular expressions. -/
def isWsChar (c : Char) : Bool :=
  c = ' ' || c = '\t' || c = '\n' || c = '\r' || c = '\x0b' || c = '\x0c'

/-- `value.trim()` of the source, on character lists. -/
def trimChars (cs : List Char) : List Char :=
  ((cs.dropWhile isWsChar).reverse.dropWhile isWsChar).reverse

/-- Numeric value of a decimal digit character. -/
def digitVal (c : Char) : Nat := c.toNat - 48

/-- Matcher for the two-digit alternative of `\d{1,2}:\d{2}` at the head of
the input; returns the hour value, the minute value and the rest. -/
def takeTime2 : List Char → Option (Nat × Nat × List Char)
  | a :: b :: k :: c :: d :: rest =>
    if k = ':' && a.isDigit && b.isDigit && c.isDigit && d.isDigit then
      some (digitVal a * 10 + digitVal b, digitVal c * 10 + digitVal d, rest)
    else none
  | _ => none

/-- Matcher for the one-digit alternative of `\d{1,2}:\d{2}` at the head of
the input. -/
def takeTime1 : List Char → Option (Nat × Nat × List Char)
  | a :: k :: c :: d :: rest =>
    if k = ':' && a.isDigit && c.isDigit && d.isDigit then
      some (digitVal a, digitVal c * 10 + digitVal d, rest)
    else none
  | _ => none

/-- Matcher for `\d{1,2}:\d{2}` at the head of the input, greedy alternative
first, exactly as the regex engine tries them. -/
def takeTime (cs : List Char) : Option (Nat × Nat × List Char) :=
  (takeTime2 cs).orElse fun _ => takeTime1 cs

/-- The range and `NaN` checks of `parseTimeToMinutes` applied to the hour
and minute values captured by the regex (`parseInt` of a digit string is
never `NaN`, so that check is vacuous). -/
def checkTime (h m : Nat) : Option Nat :=
  if h ≤ 23 && m ≤ 59 then some (h * 60 + m) else none

/-- The body of `parseTimeToMinutes` after trimming: reject the empty string,
match `^(\d{1,2}):(\d{2})$` (the anchors force the rest to be empty),
`parseInt` the two captures, and range-check hour and minute. -/
def matchClockTime (cs : List Char) : Option Nat :=
  if cs.isEmpty then none
  else
    match takeTime cs with
    | some (h, m, rest) => if rest.isEmpty then checkTime h m else none
    | none => none

/-- `parseTimeToMinutes` of the source: trim, then match and range-check. -/
def parseTimeToMinutes (s : String) : Option Nat :=
  matchClockTime (trimChars s.data)

/-- Written from the claim's words, for comparison with `parseTimeToMinutes`:
the input itself (no trimming) must be strictly of shape `H:MM` or `HH:MM`
with hour in `[0,23]` and minute in `[0,59]`, and the value is
`hour * 60 + minute`. -/
def strictClockShape : List Char → Option Nat
  | [a, k, c, d] =>
    if k = ':' && a.isDigit && c.isDigit && d.isDigit then
      checkTime (digitVal a) (digitVal c * 10 + digitVal d)
    else none
  | [a, b, k, c, d] =>
    if k = ':' && a.isDigit && b.isDigit && c.isDigit && d.isDigit then
      checkTime (digitVal a * 10 + digitVal b) (digitVal c * 10 + digitVal d)
    else none
  | _ => none

/-- `calendarText.split("\n")` of the source, on character lists. -/
def splitLines : List Char → List (List Char)
  | [] => [[]]
  | c :: rest =>
    if c = '\n' then [] :: splitLines rest
    else
      match splitLines rest with
      | [] => [[c]]
      | l :: ls => (c :: l) :: ls

/-- `cs.dropWhile isWsChar`: the maximal `\s*` run at the head. -/
def dropWs (cs : List Char) : List Char := cs.dropWhile isWsChar

/-- Structural match of `^(\d{1,2}:\d{2})\s*-\s*(\d{1,2}:\d{2})\s+(.+)$`
on a (trimmed) line: returns the two raw hour/minute pairs and the title
capture.  Since the line is trimmed it does not end in whitespace, so the
maximal `\s+` run is always followed by at least one character and no
backtracking into `\s+` can occur. -/
def parseRangeLine (cs : List Char) : Option (Nat × Nat × Nat × Nat × List Char) :=
  match takeTime cs with
  | none => none
  | some (h1, m1, r1) =>
    match dropWs r1 with
    | [] => none
    | dash :: r3 =>
      if dash = '-' then
        match takeTime (dropWs r3) with
        | none => none
        | some (h2, m2, r4) =>
          match r4 with
          | [] => none
          | c :: _ =>
            if isWsChar c then
              let title := dropWs r4
              if title.isEmpty then none else some (h1, m1, h2, m2, title)
            else none
      else none

/-- Structural match of `^(\d{1,2}:\d{2})\s+(.+)$` on a (trimmed) line. -/
def parseSingleLine (cs : List Char) : Option (Nat × Nat × List Char) :=
  match takeTime cs with
  | none => none
  | some (h, m, r) =>
    match r with
    | [] => none
    | c :: _ =>
      if isWsChar c then
        let title := dropWs r
        if title.isEmpty then none else some (h, m, title)
      else none

/-- The shared tail of both branches of the per-line loop of `parseEvents`:
trim the title and require it non-empty, clamp the start up to `workStart`
and the end down to `workEnd`, and keep the event only if it is still
non-empty. -/
def clampEvent (workStart workEnd : Nat) (title : List Char) (s e0 : Nat) :
    Option ParsedEvent :=
  let t := trimChars title
  if t.isEmpty then none
  else
    let clampedStart := max s workStart
    let clampedEnd := min e0 workEnd
    if clampedStart < clampedEnd then
      some ⟨String.mk t, clampedStart, clampedEnd⟩
    else none

/-- One iteration of the line loop of `parseEvents`: trim the line, skip it
if blank, try the range form and then the point form (a structural match of
the range form commits to it: validation failures there skip the line
without trying the point form).  The captured time strings are passed to
`parseTimeToMinutes` in the source; on a capture of the regexes this
reduces to the range checks, i.e. `checkTime`. -/
def parseLine (workStart workEnd : Nat) (rawLine : List Char) : Option ParsedEvent :=
  let line := trimChars rawLine
  if line.isEmpty then none
  else
    match parseRangeLine line with
    | some (h1, m1, h2, m2, title) =>
      match checkTime h1 m1, checkTime h2 m2 with
      | some s, some e0 => clampEvent workStart workEnd title s e0
      | _, _ => none
    | none =>
      match parseSingleLine line with
      | some (h, m, title) =>
        match checkTime h m with
        | some s => clampEvent workStart workEnd title s (s + 30)
        | none => none
      | none => none

/-- `parseEvents` of the source: process each line independently, collect the
surviving events, and stably sort them by start time (`Array.prototype.sort`
is stable; `List.insertionSort` with `≤` is the corresponding stable sort). -/
def parseEvents (calendarText : String) (workStart workEnd : Nat) : List ParsedEvent :=
  List.insertionSort (fun a b => a.startMinutes ≤ b.startMinutes)
    ((splitLines calendarText.data).filterMap (parseLine workStart workEnd))

/-- The event loop of `computeFreeSlots`, with the cursor as an explicit
argument: emit `[cursor, event.start)` when the event starts after the
cursor, advance the cursor to `max cursor event.end`, and emit the final
`[cursor, workEnd)` slot if the cursor is still inside the window. -/
def computeFreeSlotsGo (workEnd : Nat) : Nat → List ParsedEvent → List FreeSlot
  | cursor, [] => if cursor < workEnd then [⟨cursor, workEnd⟩] else []
  | cursor, ev :: rest =>
    (if cursor < ev.startMinutes then [⟨cursor, ev.startMinutes⟩] else []) ++
      computeFreeSlotsGo workEnd (max cursor ev.endMinutes) rest

/-- `computeFreeSlots` of the source. -/
def computeFreeSlots (events : List ParsedEvent) (workStart workEnd : Nat) : List FreeSlot :=
  computeFreeSlotsGo workEnd workStart events

/-- `minutesToLabel` of the source (`${n}` renders the decimal
representation, i.e. `Nat.repr`; the source's locals `h` and `m` are
inlined as `totalMinutes / 60` and `totalMinutes % 60`). -/
def minutesToLabel (totalMinutes : Nat) : String :=
  if totalMinutes / 60 = 0 then Nat.repr (totalMinutes % 60) ++ "m"
  else if totalMinutes % 60 = 0 then Nat.repr (totalMinutes / 60) ++ "h"
  else Nat.repr (totalMinutes / 60) ++ "h " ++ Nat.repr (totalMinutes % 60) ++ "m"

/-- The `overloadMessage` derivation of the source.  Both totals are sums of
interval lengths, hence natural numbers; the source's signed difference
`diff = planned - free` is positive exactly when `free < planned` and
negative exactly when `planned < free`, and `minutesToLabel` is applied to
`diff` resp. `-diff`, i.e. to the positive difference. -/
def overloadMessage (totalFreeMinutes totalPlannedTaskMinutes : Nat) : String :=
  if totalFreeMinutes = 0 then "No free time in your work window."
  else if totalFreeMinutes < totalPlannedTaskMinutes then
    "Overbooked by " ++ minutesToLabel (totalPlannedTaskMinutes - totalFreeMinutes) ++ "."
  else if totalPlannedTaskMinutes < totalFreeMinutes then
    "You still have " ++ minutesToLabel (totalFreeMinutes - totalPlannedTaskMinutes) ++ " free."
  else "Perfectly packed – no free time left."

/-- `currentSlot ? currentSlot.startMinutes : 0`: the initial slot cursor of
`buildPlan`. -/
def headCursor (slots : List FreeSlot) (dflt : Nat) : Nat :=
  match slots with
  | [] => dflt
  | sl :: _ => sl.startMinutes

/-- The `while (remaining > 0 && currentSlot)` loop of `buildPlan` for one
task.  The state is the suffix of the free-slot list from the current slot
index together with the slot cursor; advancing the slot index resets the
cursor to the next slot's start, exactly as in the source.  Within one slot
the loop body runs at most once (the chunk either exhausts the slot or the
remaining duration), so the recursion is structural on the slot list.
Returns the emitted blocks, the final slot suffix, the final cursor and the
remaining unplaced duration. -/
def placeTask (title : String) (imp : Bool) (ctx : TaskContext) :
    List FreeSlot → Nat → Nat → List PlannedBlock × List FreeSlot × Nat × Nat
  | [], cursor, remaining => ([], [], cursor, remaining)
  | sl :: rest, cursor, remaining =>
    if remaining = 0 then ([], sl :: rest, cursor, 0)
    else if sl.endMinutes ≤ cursor then
      -- `slotCursor >= currentSlot.endMinutes`: advance to the next slot.
      if rest.isEmpty then ([], [], cursor, remaining)
      else placeTask title imp ctx rest (headCursor rest 0) remaining
    else
      let used := min (sl.endMinutes - cursor) remaining
      let b : PlannedBlock := ⟨title, cursor, cursor + used, imp, ctx⟩
      if remaining - used = 0 then ([b], sl :: rest, cursor + used, 0)
      else
        -- `used = available`, the slot is exhausted and the loop advances.
        if rest.isEmpty then ([b], [], cursor + used, remaining - used)
        else
          let r := placeTask title imp ctx rest (headCursor rest 0) (remaining - used)
          (b :: r.1, r.2.1, r.2.2.1, r.2.2.2)

/-- The task loop of `buildPlan`, with the shared slot state as arguments
(it is not reset between tasks).  A task with `include = false` or
`durationMinutes <= 0` goes straight to the unscheduled list; otherwise the
task is placed by `placeTask` and reported unscheduled when its remaining
duration is still positive. -/
def buildPlanGo : List ParsedTask → List FreeSlot → Nat → List PlannedBlock × List ParsedTask
  | [], _, _ => ([], [])
  | t :: ts, slots, cursor =>
    if t.include' = false ∨ t.durationMinutes ≤ 0 then
      let r := buildPlanGo ts slots cursor
      (r.1, t :: r.2)
    else
      let p := placeTask t.title t.isImportant t.context slots cursor t.durationMinutes.toNat
      let r := buildPlanGo ts p.2.1 p.2.2.1
      (p.1 ++ r.1, if 0 < p.2.2.2 then t :: r.2 else r.2)

/-- `buildPlan` of the source. -/
def buildPlan (freeSlots : List FreeSlot) (tasks : List ParsedTask) :
    List PlannedBlock × List ParsedTask :=
  buildPlanGo tasks freeSlots (headCursor freeSlots 0)

/-- Total length of a list of free slots. -/
def slotsCap (l : List FreeSlot) : Nat :=
  (l.map fun sl => sl.endMinutes - sl.startMinutes).sum

/-- Remaining capacity of a scheduler state: the remainder of the current
slot past the cursor plus the lengths of the later slots. -/
def capState : List FreeSlot → Nat → Nat
  | [], _ => 0
  | sl :: rest, cursor => (sl.endMinutes - cursor) + slotsCap rest

/-- Total length of a list of planned blocks. -/
def blocksDuration (bs : List PlannedBlock) : Nat :=
  (bs.map fun b => b.endMinutes - b.startMinutes).sum

/-- Written from the claim's words, for comparison with `buildPlan`: a task
is unscheduled iff it is excluded, has non-positive duration, or its
duration exceeds the remaining shared capacity; an included positive task
consumes `min duration capacity`; excluded tasks consume nothing. -/
def specUnscheduled (cap : Nat) : List ParsedTask → List ParsedTask
  | [] => []
  | t :: ts =>
    if t.include' = false ∨ t.durationMinutes ≤ 0 then
      t :: specUnscheduled cap ts
    else if cap < t.durationMinutes.toNat then
      t :: specUnscheduled (cap - t.durationMinutes.toNat) ts
    else specUnscheduled (cap - t.durationMinutes.toNat) ts

/-! ### Theorems -/

/-- With no free slots the task loop leaves every task unscheduled and emits
no block (an included positive task hits `placeTask` with an empty slot
list, which returns it untouched). -/
theorem buildPlanGo_nil_slots : ∀ (ts : List ParsedTask) (c : Nat),
    buildPlanGo ts [] c = ([], ts) := by
  intro ts
  induction ts with
  | nil => intro c; rfl
  | cons t ts ih =>
    intro c
    by_cases h : t.include' = false ∨ t.durationMinutes ≤ 0
    · simp [buildPlanGo, h, ih]
    · have hd : 0 < t.durationMinutes.toNat := by
        rcases not_or.mp h with ⟨-, h2⟩
        omega
      simp [buildPlanGo, h, placeTask, ih, hd]

/-- Claim C2 (counterexample): with free slots `[{0,30},{60,90}]` and one
included 45-minute task, the two emitted blocks `{0,30}` and `{60,75}`
place the full 45 minutes, so the unscheduled list is empty — the task does
NOT appear in it, contrary to the claim. -/
theorem buildPlan_split_claim_fails :
    (buildPlan [⟨0, 30⟩, ⟨60, 90⟩]
        [⟨1, "Write report", true, 45, false, TaskContext.other, none, none⟩]).2 = [] ∧
    ¬ (⟨1, "Write report", true, 45, false, TaskContext.other, none, none⟩ : ParsedTask) ∈
        (buildPlan [⟨0, 30⟩, ⟨60, 90⟩]
          [⟨1, "Write report", true, 45, false, TaskContext.other, none, none⟩]).2 := by
  decide

/-- Claim C2 (amended): with free slots `[{0,30},{60,90}]` and one included
45-minute task, `buildPlan` returns exactly the blocks `{0,30}` and
`{60,75}`, and the task is fully placed: the unscheduled list is empty. -/
theorem buildPlan_split_example :
    buildPlan [⟨0, 30⟩, ⟨60, 90⟩]
        [⟨1, "Write report", true, 45, false, TaskContext.other, none, none⟩] =
      ([⟨"Write report", 0, 30, false, TaskContext.other⟩,
        ⟨"Write report", 60, 75, false, TaskContext.other⟩], []) := by
  decide

/-- Claim C4: the slot cursor and slot index are shared between tasks.  With
free slots `[{0,30}]` and included tasks of durations 30 and 10, the first
task takes the single block `{0,30}` and the second is fully unscheduled
with no block; and with no free slots every task (in particular every
included positive-duration task) is unscheduled and no block is produced. -/
theorem buildPlan_capacity_exhaustion :
    (buildPlan [⟨0, 30⟩]
        [⟨1, "A", true, 30, false, TaskContext.other, none, none⟩,
         ⟨2, "B", true, 10, false, TaskContext.other, none, none⟩] =
      ([⟨"A", 0, 30, false, TaskContext.other⟩],
       [⟨2, "B", true, 10, false, TaskContext.other, none, none⟩])) ∧
    ∀ tasks : List ParsedTask, buildPlan [] tasks = ([], tasks) := by
  constructor
  · decide
  · intro tasks
    simpa [buildPlan, headCursor] using buildPlanGo_nil_slots tasks 0

/-- Claim C5: with the work window 540–1020, the line
`"09:30-10:00 Standup"` yields exactly the event `{Standup, 570, 600}`, the
point-form line `"15:00 1:1"` yields `{1:1, 900, 930}` (implicit 30-minute
duration), and the lines `"garbage line"` and `"25:00 Oops"` yield no
event: a line matching neither shape is silently discarded. -/
theorem parseEvents_examples :
    parseEvents "09:30-10:00 Standup" 540 1020 = [⟨"Standup", 570, 600⟩] ∧
    parseEvents "15:00 1:1" 540 1020 = [⟨"1:1", 900, 930⟩] ∧
    parseEvents "garbage line" 540 1020 = [] ∧
    parseEvents "25:00 Oops" 540 1020 = [] := by
  decide

/-- Claim C9: the overload message is the stated four-way classification,
evaluated in this order: no free time, overbooked by the positive
difference, still free by the positive difference, perfectly packed. -/
theorem overloadMessage_spec (free planned : Nat) :
    (free = 0 → overloadMessage free planned = "No free time in your work window.") ∧
    (free ≠ 0 → free < planned →
      overloadMessage free planned =
        "Overbooked by " ++ minutesToLabel (planned - free) ++ ".") ∧
    (free ≠ 0 → planned < free →
      overloadMessage free planned =
        "You still have " ++ minutesToLabel (free - planned) ++ " free.") ∧
    (free ≠ 0 → planned = free →
      overloadMessage free planned = "Perfectly packed – no free time left.") := by
  refine ⟨?_, ?_, ?_, ?_⟩
  · intro h; simp [overloadMessage, h]
  · intro h1 h2; simp [overloadMessage, h1, h2]
  · intro h1 h2
    have : ¬ free < planned := by omega
    simp [overloadMessage, h1, h2, this]
  · intro h1 h2
    simp [overloadMessage, h1, h2]

/-- Witness for C9: concrete instances of every hypothetical branch. -/
theorem overloadMessage_spec_witness :
    ((0 : Nat) = 0 ∧ overloadMessage 0 50 = "No free time in your work window.") ∧
    ((100 : Nat) ≠ 0 ∧ 100 < 130 ∧
      overloadMessage 100 130 = "Overbooked by " ++ minutesToLabel (130 - 100) ++ ".") ∧
    ((100 : Nat) ≠ 0 ∧ 70 < 100 ∧
      overloadMessage 100 70 = "You still have " ++ minutesToLabel (100 - 70) ++ " free.") ∧
    ((100 : Nat) ≠ 0 ∧ (100 : Nat) = 100 ∧
      overloadMessage 100 100 = "Perfectly packed – no free time left.") :=
  ⟨⟨rfl, (overloadMessage_spec 0 50).1 rfl⟩,
   ⟨by decide, by decide, (overloadMessage_spec 100 130).2.1 (by decide) (by decide)⟩,
   ⟨by decide, by decide, (overloadMessage_spec 100 70).2.2.1 (by decide) (by decide)⟩,
   ⟨by decide, rfl, (overloadMessage_spec 100 100).2.2.2 (by decide) rfl⟩⟩

/-- `Nat.repr` of a number below 60 has at most two characters. -/
theorem repr_lt60_len_le_two : ∀ m : Nat, m < 60 → (Nat.repr m).data.length ≤ 2 := by
  intro m hm
  interval_cases m <;> decide

/-- `Nat.repr` of a positive number below 60 is a single character other
than `'0'`, or two characters. -/
theorem repr_lt60_shape : ∀ m : Nat, 0 < m → m < 60 →
    ((Nat.repr m).data.length = 1 ∧ (Nat.repr m).data ≠ ['0']) ∨
      (Nat.repr m).data.length = 2 := by
  intro m h1 h2
  interval_cases m <;> decide

/-- Claim C8: `minutesToLabel` renders 0 as `"0m"`, positive whole hours as
`"Nh"`, positive values under one hour as `"Mm"`, any other positive value
as `"Nh Mm"`, and never renders `"0h 0m"`; in particular
`minutesToLabel 0 = "0m"`, `minutesToLabel 60 = "1h"` and
`minutesToLabel 90 = "1h 30m"`. -/
theorem minutesToLabel_spec (n : Nat) :
    minutesToLabel 0 = "0m" ∧ minutesToLabel 60 = "1h" ∧ minutesToLabel 90 = "1h 30m" ∧
    (0 < n → n % 60 = 0 → minutesToLabel n = Nat.repr (n / 60) ++ "h") ∧
    (0 < n → n < 60 → minutesToLabel n = Nat.repr n ++ "m") ∧
    (60 < n → n % 60 ≠ 0 →
      minutesToLabel n = Nat.repr (n / 60) ++ "h " ++ Nat.repr (n % 60) ++ "m") ∧
    minutesToLabel n ≠ "0h 0m" := by
  refine ⟨by decide, by decide, by decide, ?_, ?_, ?_, ?_⟩
  · intro h1 h2
    have hh : ¬ n / 60 = 0 := by omega
    simp [minutesToLabel, hh, h2]
  · intro h1 h2
    have hh : n / 60 = 0 := by omega
    have hm : n % 60 = n := Nat.mod_eq_of_lt h2
    simp [minutesToLabel, hh, hm]
  · intro h1 h2
    have hh : ¬ n / 60 = 0 := by omega
    simp [minutesToLabel, hh, h2]
  · unfold minutesToLabel
    split_ifs with hh hm
    · intro heq
      have hd := congrArg String.data heq
      rw [String.data_append] at hd
      rw [show ("m" : String).data = ['m'] from rfl,
        show ("0h 0m" : String).data = ['0', 'h', ' ', '0', 'm'] from rfl] at hd
      have hlen := congrArg List.length hd
      simp only [List.length_append, List.length_cons, List.length_nil] at hlen
      have h60 : n % 60 < 60 := Nat.mod_lt _ (by omega)
      have := repr_lt60_len_le_two (n % 60) h60
      omega
    · intro heq
      have hd := congrArg (fun s => s.data.getLast?) heq
      simp only [String.data_append] at hd
      rw [List.getLast?_concat] at hd
      rw [show ((['0', 'h', ' ', '0', 'm'] : List Char).getLast?) = some 'm' from rfl] at hd
      exact absurd hd (by decide)
    · intro heq
      have hd := congrArg String.data heq
      simp only [String.data_append] at hd
      have hlen := congrArg List.length hd
      simp only [List.length_append, List.length_cons, List.length_nil] at hlen
      have h60 : n % 60 < 60 := Nat.mod_lt _ (by omega)
      have hm0 : 0 < n % 60 := Nat.pos_of_ne_zero hm
      rcases repr_lt60_shape (n % 60) hm0 h60 with ⟨hdm1, hdmne⟩ | hdm2
      · have hdh1 : (Nat.repr (n / 60)).data.length = 1 := by omega
        obtain ⟨c, hc⟩ := List.length_eq_one.mp hdh1
        obtain ⟨d, hdeq⟩ := List.length_eq_one.mp hdm1
        rw [hc, hdeq] at hd
        simp only [List.cons_append, List.nil_append, List.cons.injEq] at hd
        exact hdmne (by rw [hdeq, hd.2.2.2.1])
      · have hdh0 : (Nat.repr (n / 60)).data = [] := List.length_eq_zero.mp (by omega)
        rw [hdh0] at hd
        have hhead := congrArg List.head? hd
        simp only [List.nil_append, List.cons_append, List.head?_cons] at hhead
        exact absurd hhead (by decide)

/-- Witness for C8: the hypothetical branches at 120, 45 and 90 minutes. -/
theorem minutesToLabel_spec_witness :
    ((0 : Nat) < 120 ∧ 120 % 60 = 0 ∧ minutesToLabel 120 = Nat.repr (120 / 60) ++ "h") ∧
    ((0 : Nat) < 45 ∧ 45 < 60 ∧ minutesToLabel 45 = Nat.repr 45 ++ "m") ∧
    ((60 : Nat) < 90 ∧ 90 % 60 ≠ 0 ∧
      minutesToLabel 90 = Nat.repr (90 / 60) ++ "h " ++ Nat.repr (90 % 60) ++ "m") :=
  ⟨⟨by decide, by decide, (minutesToLabel_spec 120).2.2.2.1 (by decide) (by decide)⟩,
   ⟨by decide, by decide, (minutesToLabel_spec 45).2.2.2.2.1 (by decide) (by decide)⟩,
   ⟨by decide, by decide, (minutesToLabel_spec 90).2.2.2.2.2.1 (by decide) (by decide)⟩⟩

/-- After trimming, `parseTimeToMinutes`'s regex-and-range check accepts
exactly the strict `H:MM` / `HH:MM` shapes of the claim: the two-digit and
one-digit alternatives of `\d{1,2}` can never both match (the second
character cannot be both a digit and the colon), so the anchored match
succeeds exactly on four- or five-character inputs of the strict shape. -/
theorem matchClockTime_eq_strict : ∀ cs : List Char, matchClockTime cs = strictClockShape cs := by
  intro cs
  match cs with
  | [] => rfl
  | [a] => rfl
  | [a, b] => rfl
  | [a, b, c] => rfl
  | [a, b, c, d] =>
    by_cases h : (b = ':' && a.isDigit && c.isDigit && d.isDigit) = true
    · simp [matchClockTime, takeTime, takeTime2, takeTime1, strictClockShape, Option.orElse, h]
    · simp [matchClockTime, takeTime, takeTime2, takeTime1, strictClockShape, Option.orElse, h]
  | [a, b, k, c, d] =>
    by_cases h2 : (k = ':' && a.isDigit && b.isDigit && c.isDigit && d.isDigit) = true
    · simp [matchClockTime, takeTime, takeTime2, takeTime1, strictClockShape, Option.orElse, h2]
    · by_cases h1 : (b = ':' && a.isDigit && k.isDigit && c.isDigit) = true
      · simp [matchClockTime, takeTime, takeTime2, takeTime1, strictClockShape, Option.orElse,
          h2, h1]
      · simp [matchClockTime, takeTime, takeTime2, takeTime1, strictClockShape, Option.orElse,
          h2, h1]
  | a :: b :: k :: c :: d :: e :: rest =>
    by_cases h2 : (k = ':' && a.isDigit && b.isDigit && c.isDigit && d.isDigit) = true
    · simp [matchClockTime, takeTime, takeTime2, takeTime1, strictClockShape, Option.orElse, h2]
    · by_cases h1 : (b = ':' && a.isDigit && k.isDigit && c.isDigit) = true
      · simp [matchClockTime, takeTime, takeTime2, takeTime1, strictClockShape, Option.orElse,
          h2, h1]
      · simp [matchClockTime, takeTime, takeTime2, takeTime1, strictClockShape, Option.orElse,
          h2, h1]

/-- Claim C7 (counterexample): the source trims its input first, so
`" 9:30"` — which is not strictly of shape `H:MM` or `HH:MM` because of the
leading space — still returns a value.  The "only if" direction of the
claim is therefore false as stated. -/
theorem parseTimeToMinutes_trim_counterexample :
    parseTimeToMinutes " 9:30" = some 570 ∧ strictClockShape (" 9:30".data) = none := by
  decide

/-- Claim C7 (amended): `parseTimeToMinutes` returns a value exactly when
its input, after trimming surrounding whitespace, is strictly of shape
`H:MM` or `HH:MM` with hour in `[0,23]` and minute in `[0,59]`, and the
value is `hour * 60 + minute`; every other shape yields no value. -/
theorem parseTimeToMinutes_strict_after_trim (s : String) :
    parseTimeToMinutes s = strictClockShape (trimChars s.data) :=
  matchClockTime_eq_strict (trimChars s.data)

/-- Every slot emitted by the free-slot loop starts at or after the cursor. -/
theorem computeFreeSlotsGo_start_le (we : Nat) :
    ∀ (l : List ParsedEvent) (c : Nat) (sl : FreeSlot),
      sl ∈ computeFreeSlotsGo we c l → c ≤ sl.startMinutes := by
  intro l
  induction l with
  | nil =>
    intro c sl h
    simp only [computeFreeSlotsGo] at h
    by_cases hc : c < we
    · simp [hc] at h
      subst h
      exact Nat.le_refl c
    · simp [hc] at h
  | cons ev rest ih =>
    intro c sl h
    simp only [computeFreeSlotsGo] at h
    rcases List.mem_append.mp h with h1 | h2
    · by_cases hc : c < ev.startMinutes
      · simp [hc] at h1
        subst h1
        exact Nat.le_refl c
      · simp [hc] at h1
    · exact le_trans (Nat.le_max_left _ _) (ih _ _ h2)

/-- Every slot emitted by the free-slot loop is non-empty, starts at or
after the cursor and ends at or before the end of the work window. -/
theorem computeFreeSlotsGo_bounds (we : Nat) :
    ∀ (l : List ParsedEvent) (c : Nat) (sl : FreeSlot),
      (∀ ev ∈ l, ev.startMinutes ≤ we) →
      sl ∈ computeFreeSlotsGo we c l →
      c ≤ sl.startMinutes ∧ sl.startMinutes < sl.endMinutes ∧ sl.endMinutes ≤ we := by
  intro l
  induction l with
  | nil =>
    intro c sl _ h
    simp only [computeFreeSlotsGo] at h
    by_cases hc : c < we
    · simp [hc] at h
      subst h
      exact ⟨Nat.le_refl c, hc, Nat.le_refl we⟩
    · simp [hc] at h
  | cons ev rest ih =>
    intro c sl hwe h
    simp only [computeFreeSlotsGo] at h
    rcases List.mem_append.mp h with h1 | h2
    · by_cases hc : c < ev.startMinutes
      · simp [hc] at h1
        subst h1
        exact ⟨Nat.le_refl c, hc, hwe ev (List.mem_cons_self _ _)⟩
      · simp [hc] at h1
    · have h3 := ih (max c ev.endMinutes) sl
        (fun e he => hwe e (List.mem_cons_of_mem _ he)) h2
      exact ⟨le_trans (Nat.le_max_left _ _) h3.1, h3.2⟩

/-- The emitted slots are ordered: each slot ends at or before the next one
starts (the cursor only ever moves forward). -/
theorem computeFreeSlotsGo_pairwise (we : Nat) :
    ∀ (l : List ParsedEvent) (c : Nat),
      (∀ ev ∈ l, ev.startMinutes ≤ ev.endMinutes) →
      (computeFreeSlotsGo we c l).Pairwise fun a b => a.endMinutes ≤ b.startMinutes := by
  intro l
  induction l with
  | nil =>
    intro c _
    simp only [computeFreeSlotsGo]
    by_cases hc : c < we
    · simp [hc]
    · simp [hc]
  | cons ev rest ih =>
    intro c hev
    simp only [computeFreeSlotsGo]
    refine List.pairwise_append.mpr
      ⟨?_, ih _ (fun e he => hev e (List.mem_cons_of_mem _ he)), ?_⟩
    · by_cases hc : c < ev.startMinutes
      · simp [hc]
      · simp [hc]
    · intro a ha b hb
      have hb' := computeFreeSlotsGo_start_le we rest (max c ev.endMinutes) b hb
      by_cases hc : c < ev.startMinutes
      · simp [hc] at ha
        subst ha
        show ev.startMinutes ≤ b.startMinutes
        exact le_trans (hev ev (List.mem_cons_self _ _))
          (le_trans (Nat.le_max_right _ _) hb')
      · simp [hc] at ha

/-- Every point of the window at or after the cursor lies in an emitted
slot or in one of the remaining events. -/
theorem computeFreeSlotsGo_cover (we : Nat) :
    ∀ (l : List ParsedEvent) (c x : Nat), c ≤ x → x < we →
      (∃ sl ∈ computeFreeSlotsGo we c l, sl.startMinutes ≤ x ∧ x < sl.endMinutes) ∨
      ∃ ev ∈ l, ev.startMinutes ≤ x ∧ x < ev.endMinutes := by
  intro l
  induction l with
  | nil =>
    intro c x hcx hxe
    left
    refine ⟨⟨c, we⟩, ?_, hcx, hxe⟩
    simp only [computeFreeSlotsGo]
    simp [lt_of_le_of_lt hcx hxe]
  | cons ev rest ih =>
    intro c x hcx hxe
    by_cases hx1 : x < ev.startMinutes
    · have hc : c < ev.startMinutes := lt_of_le_of_lt hcx hx1
      left
      refine ⟨⟨c, ev.startMinutes⟩, ?_, hcx, hx1⟩
      simp only [computeFreeSlotsGo]
      simp [hc]
    · push_neg at hx1
      by_cases hx2 : x < ev.endMinutes
      · right
        exact ⟨ev, List.mem_cons_self _ _, hx1, hx2⟩
      · push_neg at hx2
        have hmax : max c ev.endMinutes ≤ x := Nat.max_le.mpr ⟨hcx, hx2⟩
        rcases ih (max c ev.endMinutes) x hmax hxe with ⟨sl, hsl, hb⟩ | ⟨ev2, he2, hb⟩
        · left
          refine ⟨sl, ?_, hb⟩
          simp only [computeFreeSlotsGo]
          exact List.mem_append.mpr (Or.inr hsl)
        · right
          exact ⟨ev2, List.mem_cons_of_mem _ he2, hb⟩

/-- Claim C1: for a work window `[s,e)` with `s < e` and events sorted
ascending by start that lie within the window, the computed free slots are
ordered and pairwise disjoint (each slot ends at or before the next one
starts), each slot is non-empty and contained in `[s,e)`, and the union of
the slots together with the union of the events is exactly `[s,e)`. -/
theorem computeFreeSlots_partition (s e : Nat) (events : List ParsedEvent)
    (hwin : s < e)
    (hsorted : events.Pairwise fun a b => a.startMinutes ≤ b.startMinutes)
    (hwithin : ∀ ev ∈ events,
      s ≤ ev.startMinutes ∧ ev.startMinutes < ev.endMinutes ∧ ev.endMinutes ≤ e) :
    (computeFreeSlots events s e).Pairwise (fun a b => a.endMinutes ≤ b.startMinutes) ∧
    (∀ sl ∈ computeFreeSlots events s e,
      s ≤ sl.startMinutes ∧ sl.startMinutes < sl.endMinutes ∧ sl.endMinutes ≤ e) ∧
    ∀ x : Nat, (s ≤ x ∧ x < e) ↔
      ((∃ sl ∈ computeFreeSlots events s e, sl.startMinutes ≤ x ∧ x < sl.endMinutes) ∨
        ∃ ev ∈ events, ev.startMinutes ≤ x ∧ x < ev.endMinutes) := by
  have hwe : ∀ ev ∈ events, ev.startMinutes ≤ e := fun ev hv =>
    le_trans (le_of_lt (hwithin ev hv).2.1) (hwithin ev hv).2.2
  refine ⟨?_, ?_, ?_⟩
  · exact computeFreeSlotsGo_pairwise e events s
      (fun ev hv => le_of_lt (hwithin ev hv).2.1)
  · intro sl h
    exact computeFreeSlotsGo_bounds e events s sl hwe h
  · intro x
    constructor
    · rintro ⟨h1, h2⟩
      exact computeFreeSlotsGo_cover e events s x h1 h2
    · rintro (⟨sl, hsl, hb1, hb2⟩ | ⟨ev, hev, hb1, hb2⟩)
      · have hb := computeFreeSlotsGo_bounds e events s sl hwe hsl
        exact ⟨le_trans hb.1 hb1, lt_of_lt_of_le hb2 hb.2.2⟩
      · have hw := hwithin ev hev
        exact ⟨le_trans hw.1 hb1, lt_of_lt_of_le hb2 hw.2.2⟩

/-- Witness for C1: the window 540–1020 with the single event
`{Standup, 570, 600}`. -/
theorem computeFreeSlots_partition_witness :
    ((540 : Nat) < 1020 ∧
      ([⟨"Standup", 570, 600⟩] : List ParsedEvent).Pairwise
        (fun a b => a.startMinutes ≤ b.startMinutes) ∧
      ∀ ev ∈ ([⟨"Standup", 570, 600⟩] : List ParsedEvent),
        540 ≤ ev.startMinutes ∧ ev.startMinutes < ev.endMinutes ∧ ev.endMinutes ≤ 1020) ∧
    ((computeFreeSlots [⟨"Standup", 570, 600⟩] 540 1020).Pairwise
        (fun a b => a.endMinutes ≤ b.startMinutes) ∧
      (∀ sl ∈ computeFreeSlots [⟨"Standup", 570, 600⟩] 540 1020,
        540 ≤ sl.startMinutes ∧ sl.startMinutes < sl.endMinutes ∧ sl.endMinutes ≤ 1020) ∧
      ∀ x : Nat, (540 ≤ x ∧ x < 1020) ↔
        ((∃ sl ∈ computeFreeSlots [⟨"Standup", 570, 600⟩] 540 1020,
            sl.startMinutes ≤ x ∧ x < sl.endMinutes) ∨
          ∃ ev ∈ ([⟨"Standup", 570, 600⟩] : List ParsedEvent),
            ev.startMinutes ≤ x ∧ x < ev.endMinutes)) :=
  ⟨⟨by decide, by decide, by decide⟩,
   computeFreeSlots_partition 540 1020 [⟨"Standup", 570, 600⟩]
     (by decide) (by decide) (by decide)⟩

/-- When the cursor sits at the start of the head slot, the state capacity
is the total length of the slots. -/
theorem capState_cons_start (sl : FreeSlot) (rest : List FreeSlot) :
    capState (sl :: rest) sl.startMinutes = slotsCap (sl :: rest) := by
  simp [capState, slotsCap]

/-- The initial scheduler state has the full slot capacity. -/
theorem capState_headCursor (slots : List FreeSlot) :
    capState slots (headCursor slots 0) = slotsCap slots := by
  cases slots with
  | nil => simp [capState, slotsCap]
  | cons sl rest => simp [capState, headCursor, slotsCap]

/-- One-step unfolding of `placeTask`: the loop is not entered when the
remaining duration is zero. -/
theorem placeTask_step_zero (title : String) (imp : Bool) (ctx : TaskContext)
    (sl : FreeSlot) (rest : List FreeSlot) (cursor : Nat) :
    placeTask title imp ctx (sl :: rest) cursor 0 = ([], sl :: rest, cursor, 0) := rfl

/-- One-step unfolding of `placeTask`: the cursor has reached the end of the
current slot, so the loop advances to the next slot. -/
theorem placeTask_step_adv (title : String) (imp : Bool) (ctx : TaskContext)
    (sl : FreeSlot) (rest : List FreeSlot) (cursor remaining : Nat)
    (h0 : ¬ remaining = 0) (hadv : sl.endMinutes ≤ cursor) :
    placeTask title imp ctx (sl :: rest) cursor remaining =
      if rest.isEmpty then ([], [], cursor, remaining)
      else placeTask title imp ctx rest (headCursor rest 0) remaining := by
  conv_lhs => rw [placeTask]
  rw [if_neg h0, if_pos hadv]

/-- One-step unfolding of `placeTask`: the chunk fits, one block is emitted
and the loop stops with the cursor advanced by the chunk size. -/
theorem placeTask_step_fit (title : String) (imp : Bool) (ctx : TaskContext)
    (sl : FreeSlot) (rest : List FreeSlot) (cursor remaining : Nat)
    (h0 : ¬ remaining = 0) (hadv : ¬ sl.endMinutes ≤ cursor)
    (hfit : remaining - min (sl.endMinutes - cursor) remaining = 0) :
    placeTask title imp ctx (sl :: rest) cursor remaining =
      ([⟨title, cursor, cursor + min (sl.endMinutes - cursor) remaining, imp, ctx⟩],
        sl :: rest, cursor + min (sl.endMinutes - cursor) remaining, 0) := by
  conv_lhs => rw [placeTask]
  simp only [if_neg h0, if_neg hadv, if_pos hfit]

/-- One-step unfolding of `placeTask`: the chunk exhausts the current slot
with duration left over, so a block is emitted and the loop advances. -/
theorem placeTask_step_more (title : String) (imp : Bool) (ctx : TaskContext)
    (sl : FreeSlot) (rest : List FreeSlot) (cursor remaining : Nat)
    (h0 : ¬ remaining = 0) (hadv : ¬ sl.endMinutes ≤ cursor)
    (hfit : ¬ remaining - min (sl.endMinutes - cursor) remaining = 0) :
    placeTask title imp ctx (sl :: rest) cursor remaining =
      if rest.isEmpty then
        ([⟨title, cursor, cursor + min (sl.endMinutes - cursor) remaining, imp, ctx⟩],
          [], cursor + min (sl.endMinutes - cursor) remaining,
          remaining - min (sl.endMinutes - cursor) remaining)
      else
        (⟨title, cursor, cursor + min (sl.endMinutes - cursor) remaining, imp, ctx⟩ ::
            (placeTask title imp ctx rest (headCursor rest 0)
              (remaining - min (sl.endMinutes - cursor) remaining)).1,
          (placeTask title imp ctx rest (headCursor rest 0)
            (remaining - min (sl.endMinutes - cursor) remaining)).2.1,
          (placeTask title imp ctx rest (headCursor rest 0)
            (remaining - min (sl.endMinutes - cursor) remaining)).2.2.1,
          (placeTask title imp ctx rest (headCursor rest 0)
            (remaining - min (sl.endMinutes - cursor) remaining)).2.2.2) := by
  conv_lhs => rw [placeTask]
  simp only [if_neg h0, if_neg hadv, if_neg hfit]

/-- Capacity bookkeeping of the inner placement loop: the leftover duration
is the requested duration minus the state capacity, the new state capacity
is the old one minus the requested duration, and the emitted blocks account
exactly for the placed minutes. -/
theorem placeTask_cap (title : String) (imp : Bool) (ctx : TaskContext) :
    ∀ (slots : List FreeSlot) (cursor remaining : Nat),
      (placeTask title imp ctx slots cursor remaining).2.2.2
        = remaining - capState slots cursor ∧
      capState (placeTask title imp ctx slots cursor remaining).2.1
          (placeTask title imp ctx slots cursor remaining).2.2.1
        = capState slots cursor - remaining ∧
      blocksDuration (placeTask title imp ctx slots cursor remaining).1
          + (placeTask title imp ctx slots cursor remaining).2.2.2
        = remaining := by
  intro slots
  induction slots with
  | nil =>
    intro cursor remaining
    simp [placeTask, capState, blocksDuration]
  | cons sl rest ih =>
    intro cursor remaining
    by_cases h0 : remaining = 0
    · subst h0
      rw [placeTask_step_zero]
      simp [capState, blocksDuration]


    · by_cases hadv : sl.endMinutes ≤ cursor
      · have hz : sl.endMinutes - cursor = 0 := Nat.sub_eq_zero_of_le hadv
        rw [placeTask_step_adv title imp ctx sl rest cursor remaining h0 hadv]
        cases rest with
        | nil =>
          simp [capState, slotsCap, blocksDuration, hz]
        | cons sl2 rest2 =>
          simp only [List.isEmpty_cons, Bool.false_eq_true, if_false]
          obtain ⟨e1, e2, e3⟩ := ih (headCursor (sl2 :: rest2) 0) remaining
          have hc2 : capState (sl2 :: rest2) (headCursor (sl2 :: rest2) 0)
              = slotsCap (sl2 :: rest2) := capState_headCursor _
          refine ⟨?_, ?_, ?_⟩
          · rw [e1, hc2]
            simp [capState, hz]
          · rw [e2, hc2]
            simp [capState, hz]
          · exact e3
      · by_cases hfit : remaining - min (sl.endMinutes - cursor) remaining = 0
        · rw [placeTask_step_fit title imp ctx sl rest cursor remaining h0 hadv hfit]
          refine ⟨?_, ?_, ?_⟩
          · simp [capState]
            omega
          · simp [capState]
            omega
          · simp [blocksDuration]
            omega
        · rw [placeTask_step_more title imp ctx sl rest cursor remaining h0 hadv hfit]
          cases rest with
          | nil =>
            simp only [List.isEmpty_nil, if_true]
            refine ⟨?_, ?_, ?_⟩
            · simp [capState, slotsCap]
              omega
            · simp [capState, slotsCap]
              omega
            · simp only [blocksDuration, List.map_cons, List.map_nil,
                List.sum_cons, List.sum_nil]
              omega
          | cons sl2 rest2 =>
            simp only [List.isEmpty_cons, Bool.false_eq_true, if_false]
            obtain ⟨e1, e2, e3⟩ := ih (headCursor (sl2 :: rest2) 0)
              (remaining - min (sl.endMinutes - cursor) remaining)
            have hc2 : capState (sl2 :: rest2) (headCursor (sl2 :: rest2) 0)
                = slotsCap (sl2 :: rest2) := capState_headCursor _
            refine ⟨?_, ?_, ?_⟩
            · rw [e1, hc2]
              simp [capState]
              omega
            · rw [e2, hc2]
              simp [capState]
              omega
            · simp only [blocksDuration, List.map_cons, List.sum_cons] at e3 ⊢
              omega

/-- The unscheduled list of the task loop equals the capacity-level
reference `specUnscheduled` of the remaining shared capacity. -/
theorem buildPlanGo_unsched :
    ∀ (ts : List ParsedTask) (slots : List FreeSlot) (cursor : Nat),
      (buildPlanGo ts slots cursor).2 = specUnscheduled (capState slots cursor) ts := by
  intro ts
  induction ts with
  | nil => intro slots cursor; rfl
  | cons t ts ih =>
    intro slots cursor
    by_cases h : t.include' = false ∨ t.durationMinutes ≤ 0
    · simp only [buildPlanGo, if_pos h, specUnscheduled]
      rw [ih]
    · simp only [buildPlanGo, if_neg h, specUnscheduled]
      obtain ⟨e1, e2, e3⟩ := placeTask_cap t.title t.isImportant t.context slots cursor
        t.durationMinutes.toNat
      rw [ih, e2]
      by_cases hc : capState slots cursor < t.durationMinutes.toNat
      · rw [if_pos hc]
        have hpos : 0 < (placeTask t.title t.isImportant t.context slots cursor
            t.durationMinutes.toNat).2.2.2 := by
          rw [e1]; omega
        rw [if_pos hpos]
      · rw [if_neg hc]
        have hneg : ¬ 0 < (placeTask t.title t.isImportant t.context slots cursor
            t.durationMinutes.toNat).2.2.2 := by
          rw [e1]; omega
        rw [if_neg hneg]

/-- Claim C3: a task appears in `buildPlan`'s unscheduled output exactly
when it is excluded, has non-positive duration, or its duration exceeds
the shared capacity remaining when it is reached (i.e. its remaining
duration is still positive after the free slots are exhausted — partial
placement is kept, not rolled back): the unscheduled list equals the
capacity-level reference `specUnscheduled` walked from the total free
capacity.  Moreover a task with `include = false` or
`durationMinutes <= 0` consumes nothing: the loop's blocks and state are
those of the remaining tasks alone, with the task merely prepended to the
unscheduled list. -/
theorem buildPlan_unscheduled_characterization (slots : List FreeSlot)
    (tasks : List ParsedTask) (t : ParsedTask) (ts : List ParsedTask)
    (slots' : List FreeSlot) (cursor : Nat)
    (ht : t.include' = false ∨ t.durationMinutes ≤ 0) :
    (buildPlan slots tasks).2 = specUnscheduled (slotsCap slots) tasks ∧
    buildPlanGo (t :: ts) slots' cursor =
      ((buildPlanGo ts slots' cursor).1, t :: (buildPlanGo ts slots' cursor).2) := by
  constructor
  · rw [buildPlan, buildPlanGo_unsched, capState_headCursor]
  · simp only [buildPlanGo, if_pos ht]

/-- Witness for C3: an included 45-minute task against a single 30-minute
slot (partially placed, still unscheduled), and an excluded task stepped
over an arbitrary concrete state. -/
theorem buildPlan_unscheduled_characterization_witness :
    ((⟨2, "B", false, 10, false, TaskContext.other, none, none⟩ : ParsedTask).include' = false ∨
      (⟨2, "B", false, 10, false, TaskContext.other, none, none⟩ : ParsedTask).durationMinutes ≤ 0) ∧
    ((buildPlan [⟨0, 30⟩] [⟨1, "A", true, 45, false, TaskContext.other, none, none⟩]).2 =
        specUnscheduled (slotsCap [⟨0, 30⟩])
          [⟨1, "A", true, 45, false, TaskContext.other, none, none⟩] ∧
      buildPlanGo [⟨2, "B", false, 10, false, TaskContext.other, none, none⟩] [] 0 =
        ((buildPlanGo ([] : List ParsedTask) [] 0).1,
          (⟨2, "B", false, 10, false, TaskContext.other, none, none⟩ : ParsedTask) ::
            (buildPlanGo ([] : List ParsedTask) [] 0).2)) :=
  ⟨Or.inl rfl,
   buildPlan_unscheduled_characterization [⟨0, 30⟩]
     [⟨1, "A", true, 45, false, TaskContext.other, none, none⟩]
     ⟨2, "B", false, 10, false, TaskContext.other, none, none⟩ [] [] 0 (Or.inl rfl)⟩

/-- A successful `clampEvent` yields exactly the clamped bounds, and only
when they leave a non-empty interval. -/
theorem clampEvent_some (ws we : Nat) (title : List Char) (s e0 : Nat) (ev : ParsedEvent)
    (h : clampEvent ws we title s e0 = some ev) :
    ev.startMinutes = max s ws ∧ ev.endMinutes = min e0 we ∧ max s ws < min e0 we := by
  simp only [clampEvent] at h
  split at h
  · simp at h
  · split at h
    · rename_i hlt
      cases h
      exact ⟨rfl, rfl, hlt⟩
    · simp at h

/-- Every event produced by the per-line parser comes out of `clampEvent`. -/
theorem parseLine_some (ws we : Nat) (rawLine : List Char) (ev : ParsedEvent)
    (h : parseLine ws we rawLine = some ev) :
    ∃ (title : List Char) (s e0 : Nat), clampEvent ws we title s e0 = some ev := by
  simp only [parseLine] at h
  split at h
  · simp at h
  · split at h
    · split at h <;> first
        | exact ⟨_, _, _, h⟩
        | simp at h
    · split at h
      · split at h <;> first
          | exact ⟨_, _, _, h⟩
          | simp at h
      · simp at h

/-- The line matchers never match a blank line. -/
theorem parseRangeLine_nil : parseRangeLine [] = none := rfl

/-- The point-form matcher never matches a blank line either. -/
theorem parseSingleLine_nil : parseSingleLine [] = none := rfl

/-- Claim C6: for every input line and window, when the range form matches
with parsed-and-validated times `s0`/`e0` (the `checkTime` values of the
regex captures), the parser's output on that line is exactly "clamp the
start to `max s0 workStart` and the end to `min e0 workEnd`, keep the
event only if the clamped interval is non-empty (and the title survives
trimming)"; likewise for the point form with its implicit end `s0 + 30`;
consequently every event of `parseEvents`'s output satisfies
`workStart ≤ startMinutes < endMinutes ≤ workEnd`. -/
theorem parseEvents_clamping :
    (∀ (ws we : Nat) (rawLine : List Char) (h1 m1 h2 m2 : Nat) (title : List Char)
        (s0 e0 : Nat),
      parseRangeLine (trimChars rawLine) = some (h1, m1, h2, m2, title) →
      checkTime h1 m1 = some s0 → checkTime h2 m2 = some e0 →
      parseLine ws we rawLine =
        if (trimChars title).isEmpty then none
        else if max s0 ws < min e0 we then
          some ⟨String.mk (trimChars title), max s0 ws, min e0 we⟩
        else none) ∧
    (∀ (ws we : Nat) (rawLine : List Char) (h m : Nat) (title : List Char) (s0 : Nat),
      parseRangeLine (trimChars rawLine) = none →
      parseSingleLine (trimChars rawLine) = some (h, m, title) →
      checkTime h m = some s0 →
      parseLine ws we rawLine =
        if (trimChars title).isEmpty then none
        else if max s0 ws < min (s0 + 30) we then
          some ⟨String.mk (trimChars title), max s0 ws, min (s0 + 30) we⟩
        else none) ∧
    ∀ (text : String) (ws we : Nat) (ev : ParsedEvent),
      ev ∈ parseEvents text ws we →
      ws ≤ ev.startMinutes ∧ ev.startMinutes < ev.endMinutes ∧ ev.endMinutes ≤ we := by
  refine ⟨?_, ?_, ?_⟩
  · intro ws we rawLine h1 m1 h2 m2 title s0 e0 hr hc1 hc2
    have hne : (trimChars rawLine).isEmpty = false := by
      cases hl : trimChars rawLine with
      | nil =>
        rw [hl, parseRangeLine_nil] at hr
        exact Option.noConfusion hr
      | cons a l => rfl
    simp [parseLine, hne, hr, hc1, hc2, clampEvent]
  · intro ws we rawLine h m title s0 hr0 hs hc
    have hne : (trimChars rawLine).isEmpty = false := by
      cases hl : trimChars rawLine with
      | nil =>
        rw [hl, parseSingleLine_nil] at hs
        exact Option.noConfusion hs
      | cons a l => rfl
    simp [parseLine, hne, hr0, hs, hc, clampEvent]
  · intro text ws we ev hmem
    simp only [parseEvents] at hmem
    have hmem2 : ev ∈ (splitLines text.data).filterMap (parseLine ws we) :=
      (List.Perm.mem_iff (List.perm_insertionSort _ _)).mp hmem
    obtain ⟨l, hl, hsome⟩ := List.mem_filterMap.mp hmem2
    obtain ⟨title, s0, e0, hce⟩ := parseLine_some ws we l ev hsome
    obtain ⟨h1, h2, h3⟩ := clampEvent_some ws we title s0 e0 ev hce
    refine ⟨?_, ?_, ?_⟩
    · rw [h1]
      exact Nat.le_max_right _ _
    · rw [h1, h2]
      exact h3
    · rw [h2]
      exact Nat.min_le_right _ _

/-- Witness for C6: the range line `"09:30-10:00 Standup"` (parsed times
570/600) and the point line `"15:00 1:1"` (parsed time 900, implicit end
930) in the window 540–1020, plus an output event of `parseEvents`. -/
theorem parseEvents_clamping_witness :
    (parseRangeLine (trimChars ("09:30-10:00 Standup".data)) =
        some (9, 30, 10, 0, "Standup".data) ∧
      checkTime 9 30 = some 570 ∧ checkTime 10 0 = some 600 ∧
      parseLine 540 1020 ("09:30-10:00 Standup".data) =
        (if (trimChars ("Standup".data)).isEmpty then none
         else if max 570 540 < min 600 1020 then
           some ⟨String.mk (trimChars ("Standup".data)), max 570 540, min 600 1020⟩
         else none)) ∧
    (parseRangeLine (trimChars ("15:00 1:1".data)) = none ∧
      parseSingleLine (trimChars ("15:00 1:1".data)) = some (15, 0, "1:1".data) ∧
      checkTime 15 0 = some 900 ∧
      parseLine 540 1020 ("15:00 1:1".data) =
        (if (trimChars ("1:1".data)).isEmpty then none
         else if max 900 540 < min (900 + 30) 1020 then
           some ⟨String.mk (trimChars ("1:1".data)), max 900 540, min (900 + 30) 1020⟩
         else none)) ∧
    ((⟨"Standup", 570, 600⟩ : ParsedEvent) ∈ parseEvents "09:30-10:00 Standup" 540 1020 ∧
      540 ≤ (⟨"Standup", 570, 600⟩ : ParsedEvent).startMinutes ∧
      (⟨"Standup", 570, 600⟩ : ParsedEvent).startMinutes <
        (⟨"Standup", 570, 600⟩ : ParsedEvent).endMinutes ∧
      (⟨"Standup", 570, 600⟩ : ParsedEvent).endMinutes ≤ 1020) :=
  ⟨⟨by decide, by decide, by decide,
    parseEvents_clamping.1 540 1020 ("09:30-10:00 Standup".data) 9 30 10 0
      ("Standup".data) 570 600 (by decide) (by decide) (by decide)⟩,
   ⟨by decide, by decide, by decide,
    parseEvents_clamping.2.1 540 1020 ("15:00 1:1".data) 15 0
      ("1:1".data) 900 (by decide) (by decide) (by decide)⟩,
   ⟨by decide,
    parseEvents_clamping.2.2 "09:30-10:00 Standup" 540 1020
      ⟨"Standup", 570, 600⟩ (by decide)⟩⟩

/-- Scheduler state invariant: the cursor lies between the start and the
end of the current slot (trivially true once the slots are exhausted). -/
def stInv : List FreeSlot → Nat → Prop
  | [], _ => True
  | sl :: _, cursor => sl.startMinutes ≤ cursor ∧ cursor ≤ sl.endMinutes

/-- Geometry of the inner placement loop on a well-formed state: every
emitted block starts at or after the cursor, is non-empty, ends by the
final cursor and fits inside one of the state's slots; the blocks are
mutually ordered and disjoint; the cursor only moves forward; the final
slot list is a suffix of the initial one; and the state invariant is
preserved. -/
theorem placeTask_geom (title : String) (imp : Bool) (ctx : TaskContext) :
    ∀ (slots : List FreeSlot) (cursor remaining : Nat),
      (∀ sl ∈ slots, sl.startMinutes < sl.endMinutes) →
      slots.Pairwise (fun a b => a.endMinutes ≤ b.startMinutes) →
      stInv slots cursor →
      (∀ b ∈ (placeTask title imp ctx slots cursor remaining).1,
          cursor ≤ b.startMinutes ∧ b.startMinutes < b.endMinutes ∧
          b.endMinutes ≤ (placeTask title imp ctx slots cursor remaining).2.2.1) ∧
      (placeTask title imp ctx slots cursor remaining).1.Pairwise
        (fun a b => a.endMinutes ≤ b.startMinutes) ∧
      (∀ b ∈ (placeTask title imp ctx slots cursor remaining).1,
          ∃ sl ∈ slots, sl.startMinutes ≤ b.startMinutes ∧ b.endMinutes ≤ sl.endMinutes) ∧
      cursor ≤ (placeTask title imp ctx slots cursor remaining).2.2.1 ∧
      List.IsSuffix (placeTask title imp ctx slots cursor remaining).2.1 slots ∧
      stInv (placeTask title imp ctx slots cursor remaining).2.1
        (placeTask title imp ctx slots cursor remaining).2.2.1 := by
  intro slots
  induction slots with
  | nil =>
    intro cursor remaining _ _ _
    refine ⟨?_, ?_, ?_, ?_, ?_, ?_⟩ <;>
      simp [placeTask, stInv, List.suffix_refl]
  | cons sl rest ih =>
    intro cursor remaining HS HP HI
    obtain ⟨hi1, hi2⟩ : sl.startMinutes ≤ cursor ∧ cursor ≤ sl.endMinutes := HI
    by_cases h0 : remaining = 0
    · subst h0
      rw [placeTask_step_zero]
      exact ⟨by simp, by simp, by simp, Nat.le_refl _, List.suffix_refl _, ⟨hi1, hi2⟩⟩
    · by_cases hadv : sl.endMinutes ≤ cursor
      · rw [placeTask_step_adv title imp ctx sl rest cursor remaining h0 hadv]
        cases rest with
        | nil =>
          refine ⟨?_, ?_, ?_, ?_, ?_, ?_⟩ <;>
            simp [stInv, List.nil_suffix]
        | cons sl2 rest2 =>
          simp only [List.isEmpty_cons, Bool.false_eq_true, if_false]
          have hhead : headCursor (sl2 :: rest2) 0 = sl2.startMinutes := rfl
          rw [hhead]
          have HS' : ∀ s ∈ sl2 :: rest2, s.startMinutes < s.endMinutes :=
            fun s hs => HS s (List.mem_cons_of_mem _ hs)
          have HP' : (sl2 :: rest2).Pairwise (fun a b => a.endMinutes ≤ b.startMinutes) :=
            (List.pairwise_cons.mp HP).2
          have hnext : sl.endMinutes ≤ sl2.startMinutes :=
            (List.pairwise_cons.mp HP).1 sl2 (List.mem_cons_self _ _)
          have HI' : stInv (sl2 :: rest2) sl2.startMinutes :=
            ⟨Nat.le_refl _, le_of_lt (HS sl2 (List.mem_cons_of_mem _ (List.mem_cons_self _ _)))⟩
          obtain ⟨g1, g2, g3, g4, g5, g6⟩ := ih sl2.startMinutes remaining HS' HP' HI'
          have hcs2 : cursor ≤ sl2.startMinutes := le_trans hi2 hnext
          refine ⟨?_, g2, ?_, le_trans hcs2 g4, ?_, g6⟩
          · intro b hb
            obtain ⟨b1, b2, b3⟩ := g1 b hb
            exact ⟨le_trans hcs2 b1, b2, b3⟩
          · intro b hb
            obtain ⟨s, hs, hb1, hb2⟩ := g3 b hb
            exact ⟨s, List.mem_cons_of_mem _ hs, hb1, hb2⟩
          · exact g5.trans (List.suffix_cons sl (sl2 :: rest2))
      · have havail : 0 < sl.endMinutes - cursor := by omega
        have hused : 0 < min (sl.endMinutes - cursor) remaining := by omega
        by_cases hfit : remaining - min (sl.endMinutes - cursor) remaining = 0
        · rw [placeTask_step_fit title imp ctx sl rest cursor remaining h0 hadv hfit]
          refine ⟨?_, ?_, ?_, ?_, ?_, ?_⟩
          · intro b hb
            rw [List.mem_singleton] at hb
            subst hb
            refine ⟨Nat.le_refl _, ?_, Nat.le_refl _⟩
            show cursor < cursor + min (sl.endMinutes - cursor) remaining
            omega
          · simp
          · intro b hb
            rw [List.mem_singleton] at hb
            subst hb
            refine ⟨sl, List.mem_cons_self _ _, hi1, ?_⟩
            show cursor + min (sl.endMinutes - cursor) remaining ≤ sl.endMinutes
            omega
          · exact Nat.le_add_right _ _
          · exact List.suffix_refl _
          · constructor
            · show sl.startMinutes ≤ cursor + min (sl.endMinutes - cursor) remaining
              omega
            · show cursor + min (sl.endMinutes - cursor) remaining ≤ sl.endMinutes
              omega
        · rw [placeTask_step_more title imp ctx sl rest cursor remaining h0 hadv hfit]
          cases rest with
          | nil =>
            simp only [List.isEmpty_nil, if_true]
            refine ⟨?_, ?_, ?_, ?_, ?_, ?_⟩
            · intro b hb
              rw [List.mem_singleton] at hb
              subst hb
              refine ⟨Nat.le_refl _, ?_, Nat.le_refl _⟩
              show cursor < cursor + min (sl.endMinutes - cursor) remaining
              omega
            · simp
            · intro b hb
              rw [List.mem_singleton] at hb
              subst hb
              refine ⟨sl, List.mem_cons_self _ _, hi1, ?_⟩
              show cursor + min (sl.endMinutes - cursor) remaining ≤ sl.endMinutes
              omega
            · exact Nat.le_add_right _ _
            · exact List.nil_suffix
            · trivial
          | cons sl2 rest2 =>
            simp only [List.isEmpty_cons, Bool.false_eq_true, if_false]
            have hhead : headCursor (sl2 :: rest2) 0 = sl2.startMinutes := rfl
            rw [hhead]
            have HS' : ∀ s ∈ sl2 :: rest2, s.startMinutes < s.endMinutes :=
              fun s hs => HS s (List.mem_cons_of_mem _ hs)
            have HP' : (sl2 :: rest2).Pairwise (fun a b => a.endMinutes ≤ b.startMinutes) :=
              (List.pairwise_cons.mp HP).2
            have hnext : sl.endMinutes ≤ sl2.startMinutes :=
              (List.pairwise_cons.mp HP).1 sl2 (List.mem_cons_self _ _)
            have HI' : stInv (sl2 :: rest2) sl2.startMinutes :=
              ⟨Nat.le_refl _, le_of_lt (HS sl2 (List.mem_cons_of_mem _ (List.mem_cons_self _ _)))⟩
            obtain ⟨g1, g2, g3, g4, g5, g6⟩ :=
              ih sl2.startMinutes (remaining - min (sl.endMinutes - cursor) remaining) HS' HP' HI'
            have hbend : cursor + min (sl.endMinutes - cursor) remaining ≤ sl2.startMinutes := by
              have : cursor + min (sl.endMinutes - cursor) remaining ≤ sl.endMinutes := by omega
              exact le_trans this hnext
            refine ⟨?_, ?_, ?_, ?_, ?_, g6⟩
            · intro b hb
              rcases List.mem_cons.mp hb with hb | hb
              · subst hb
                refine ⟨Nat.le_refl _, ?_, ?_⟩
                · show cursor < cursor + min (sl.endMinutes - cursor) remaining
                  omega
                · show cursor + min (sl.endMinutes - cursor) remaining ≤ _
                  exact le_trans hbend g4
              · obtain ⟨b1, b2, b3⟩ := g1 b hb
                refine ⟨?_, b2, b3⟩
                calc cursor ≤ cursor + min (sl.endMinutes - cursor) remaining :=
                      Nat.le_add_right _ _
                  _ ≤ sl2.startMinutes := hbend
                  _ ≤ b.startMinutes := b1
            · refine List.pairwise_cons.mpr ⟨?_, g2⟩
              intro b hb
              show cursor + min (sl.endMinutes - cursor) remaining ≤ b.startMinutes
              exact le_trans hbend ((g1 b hb).1)
            · intro b hb
              rcases List.mem_cons.mp hb with hb | hb
              · subst hb
                refine ⟨sl, List.mem_cons_self _ _, hi1, ?_⟩
                show cursor + min (sl.endMinutes - cursor) remaining ≤ sl.endMinutes
                omega
              · obtain ⟨s, hs, hb1, hb2⟩ := g3 b hb
                exact ⟨s, List.mem_cons_of_mem _ hs, hb1, hb2⟩
            · calc cursor ≤ sl2.startMinutes :=
                  le_trans (Nat.le_add_right _ _) hbend
                _ ≤ _ := g4
            · exact g5.trans (List.suffix_cons sl (sl2 :: rest2))

/-- Block durations add over list concatenation. -/
theorem blocksDuration_append (l1 l2 : List PlannedBlock) :
    blocksDuration (l1 ++ l2) = blocksDuration l1 + blocksDuration l2 := by
  simp [blocksDuration]

/-- Geometry of the whole task loop on a well-formed state: every emitted
block starts at or after the cursor, is non-empty and fits inside one of
the state's slots, and the blocks are mutually ordered and disjoint. -/
theorem buildPlanGo_geom :
    ∀ (ts : List ParsedTask) (slots : List FreeSlot) (cursor : Nat),
      (∀ sl ∈ slots, sl.startMinutes < sl.endMinutes) →
      slots.Pairwise (fun a b => a.endMinutes ≤ b.startMinutes) →
      stInv slots cursor →
      (∀ b ∈ (buildPlanGo ts slots cursor).1,
          cursor ≤ b.startMinutes ∧ b.startMinutes < b.endMinutes ∧
          ∃ sl ∈ slots, sl.startMinutes ≤ b.startMinutes ∧ b.endMinutes ≤ sl.endMinutes) ∧
      (buildPlanGo ts slots cursor).1.Pairwise
        (fun a b => a.endMinutes ≤ b.startMinutes) := by
  intro ts
  induction ts with
  | nil =>
    intro slots cursor _ _ _
    exact ⟨by simp [buildPlanGo], by simp [buildPlanGo]⟩
  | cons t ts ih =>
    intro slots cursor HS HP HI
    by_cases h : t.include' = false ∨ t.durationMinutes ≤ 0
    · simp only [buildPlanGo, if_pos h]
      exact ih slots cursor HS HP HI
    · simp only [buildPlanGo, if_neg h]
      obtain ⟨g1, g2, g3, g4, g5, g6⟩ := placeTask_geom t.title t.isImportant t.context
        slots cursor t.durationMinutes.toNat HS HP HI
      have HS' : ∀ sl ∈ (placeTask t.title t.isImportant t.context slots cursor
          t.durationMinutes.toNat).2.1, sl.startMinutes < sl.endMinutes :=
        fun sl hsl => HS sl (g5.subset hsl)
      have HP' := HP.sublist g5.sublist
      obtain ⟨G1, G2⟩ := ih _ _ HS' HP' g6
      constructor
      · intro b hb
        rcases List.mem_append.mp hb with hb | hb
        · obtain ⟨b1, b2, b3⟩ := g1 b hb
          exact ⟨b1, b2, g3 b hb⟩
        · obtain ⟨b1, b2, b3⟩ := G1 b hb
          obtain ⟨s, hs, hb1, hb2⟩ := b3
          exact ⟨le_trans g4 b1, b2, s, g5.subset hs, hb1, hb2⟩
      · refine List.pairwise_append.mpr ⟨g2, G2, ?_⟩
        intro a ha b hb
        exact le_trans ((g1 a ha).2.2) ((G1 b hb).1)

/-- The total duration of the emitted blocks never exceeds the state
capacity. -/
theorem buildPlanGo_sum :
    ∀ (ts : List ParsedTask) (slots : List FreeSlot) (cursor : Nat),
      blocksDuration (buildPlanGo ts slots cursor).1 ≤ capState slots cursor := by
  intro ts
  induction ts with
  | nil =>
    intro slots cursor
    simp [buildPlanGo, blocksDuration]
  | cons t ts ih =>
    intro slots cursor
    by_cases h : t.include' = false ∨ t.durationMinutes ≤ 0
    · simp only [buildPlanGo, if_pos h]
      exact ih slots cursor
    · simp only [buildPlanGo, if_neg h]
      obtain ⟨e1, e2, e3⟩ := placeTask_cap t.title t.isImportant t.context slots cursor
        t.durationMinutes.toNat
      have hr := ih (placeTask t.title t.isImportant t.context slots cursor
          t.durationMinutes.toNat).2.1
        (placeTask t.title t.isImportant t.context slots cursor
          t.durationMinutes.toNat).2.2.1
      rw [blocksDuration_append]
      rw [e2] at hr
      omega

/-- Claim C10: for pairwise-disjoint ascending non-empty free slots and any
tasks, every planned block is non-empty, the blocks are pairwise disjoint
and in ascending order (each block ends at or before the next one starts),
every block fits inside one of the input free slots, and the total block
duration never exceeds the total free-slot duration. -/
theorem buildPlan_blocks_invariant (slots : List FreeSlot) (tasks : List ParsedTask)
    (hpos : ∀ sl ∈ slots, sl.startMinutes < sl.endMinutes)
    (hasc : slots.Pairwise fun a b => a.endMinutes ≤ b.startMinutes) :
    (∀ b ∈ (buildPlan slots tasks).1, b.startMinutes < b.endMinutes) ∧
    (buildPlan slots tasks).1.Pairwise (fun a b => a.endMinutes ≤ b.startMinutes) ∧
    (∀ b ∈ (buildPlan slots tasks).1, ∃ sl ∈ slots,
        sl.startMinutes ≤ b.startMinutes ∧ b.endMinutes ≤ sl.endMinutes) ∧
    blocksDuration (buildPlan slots tasks).1 ≤ slotsCap slots := by
  have hinv : stInv slots (headCursor slots 0) := by
    cases slots with
    | nil => trivial
    | cons sl rest => exact ⟨Nat.le_refl _, le_of_lt (hpos sl (List.mem_cons_self _ _))⟩
  obtain ⟨G1, G2⟩ := buildPlanGo_geom tasks slots (headCursor slots 0) hpos hasc hinv
  have hsum := buildPlanGo_sum tasks slots (headCursor slots 0)
  rw [capState_headCursor] at hsum
  exact ⟨fun b hb => (G1 b hb).2.1, G2, fun b hb => (G1 b hb).2.2, hsum⟩

/-- Witness for C10: the slots `[{0,30},{60,90}]` with a split 45-minute
task. -/
theorem buildPlan_blocks_invariant_witness :
    ((∀ sl ∈ ([⟨0, 30⟩, ⟨60, 90⟩] : List FreeSlot), sl.startMinutes < sl.endMinutes) ∧
      ([⟨0, 30⟩, ⟨60, 90⟩] : List FreeSlot).Pairwise
        (fun a b => a.endMinutes ≤ b.startMinutes)) ∧
    ((∀ b ∈ (buildPlan [⟨0, 30⟩, ⟨60, 90⟩]
          [⟨1, "A", true, 45, false, TaskContext.other, none, none⟩]).1,
        b.startMinutes < b.endMinutes) ∧
      (buildPlan [⟨0, 30⟩, ⟨60, 90⟩]
          [⟨1, "A", true, 45, false, TaskContext.other, none, none⟩]).1.Pairwise
        (fun a b => a.endMinutes ≤ b.startMinutes) ∧
      (∀ b ∈ (buildPlan [⟨0, 30⟩, ⟨60, 90⟩]
          [⟨1, "A", true, 45, false, TaskContext.other, none, none⟩]).1,
        ∃ sl ∈ ([⟨0, 30⟩, ⟨60, 90⟩] : List FreeSlot),
          sl.startMinutes ≤ b.startMinutes ∧ b.endMinutes ≤ sl.endMinutes) ∧
      blocksDuration (buildPlan [⟨0, 30⟩, ⟨60, 90⟩]
          [⟨1, "A", true, 45, false, TaskContext.other, none, none⟩]).1 ≤
        slotsCap [⟨0, 30⟩, ⟨60, 90⟩]) :=
  ⟨⟨by decide, by decide⟩,
   buildPlan_blocks_invariant [⟨0, 30⟩, ⟨60, 90⟩]
     [⟨1, "A", true, 45, false, TaskContext.other, none, none⟩]
     (by decide) (by decide)⟩

end TodayDesk
